import Mathlib

/-!
Shallow embedding of the font-detection engine of `src/app/api/detect-fonts/route.js`
(function `detectFonts` and its helper `extractFontFamiliesFromCSS`).

CSS text is modelled as `List Char`.  Each JavaScript regular expression used by the
source is embedded as a dedicated matcher that reproduces the engine's semantics
(leftmost match, greedy quantifiers with backtracking where the pattern needs it,
global scans restarting after each match).  JavaScript `Set`s of strings are modelled
as lists with first-insertion-wins deduplication; the `Set` of fresh object literals
used for font file references is modelled as a plain list, because object values are
compared by reference in JavaScript and every added literal is a fresh reference.
Network fetches are a parameter `fetch : String -> Option String` (`some` models an
HTTP 200 response body, `none` models any axios failure, timeout or non-2xx status).
The WHATWG `URL` constructor (a platform API) is modelled for absolute and relative
`http(s)` references over ASCII hosts; `none` models the `TypeError` it throws.
-/

set_option maxRecDepth 10000

/-- Space characters recognised by the JavaScript regex class `\s` (ASCII part plus
no-break space and BOM, the ones that can occur in the inputs considered here). -/
def jsSpaceChars : List Char := [' ', '\t', '\n', '\r', '\x0b', '\x0c', '\u00A0', '\uFEFF']

/-- Test for a JavaScript whitespace character. -/
def isSpaceJS (c : Char) : Bool := jsSpaceChars.contains c

/-- The double-quote character. -/
def dquote : Char := '\x22'

/-- The single-quote character. -/
def squote : Char := '\x27'

/-- The opening curly bracket character. -/
def obr : Char := '\x7b'

/-- The closing curly bracket character. -/
def cbr : Char := '\x7d'

/-- Test for a quote character (the class `["']`). -/
def isQuote (c : Char) : Bool := c == dquote || c == squote

/-- Strip a literal (case-sensitive) prefix, returning the remainder on success. -/
def dropPrefixCS : List Char → List Char → Option (List Char)
  | [], l => some l
  | _ :: _, [] => none
  | p :: ps, c :: cs => if p == c then dropPrefixCS ps cs else none

/-- Strip a literal prefix up to ASCII case, returning the remainder on success
(models a literal inside a regex with the `i` flag). -/
def dropPrefixCI : List Char → List Char → Option (List Char)
  | [], l => some l
  | _ :: _, [] => none
  | p :: ps, c :: cs => if p.toLower == c.toLower then dropPrefixCI ps cs else none

/-- Substring containment, models `String.prototype.includes`. -/
def containsSub (pat : List Char) : List Char → Bool
  | [] => pat.isEmpty
  | c :: cs => pat.isPrefixOf (c :: cs) || containsSub pat cs

/-- Substring containment on `String`, models `includes`. -/
def strContains (pat s : String) : Bool := containsSub pat.data s.data

/-- Models `String.prototype.trim` (whitespace stripped from both ends). -/
def jsTrim (l : List Char) : List Char :=
  ((l.dropWhile isSpaceJS).reverse.dropWhile isSpaceJS).reverse

/-- Models `String.prototype.split` with a single-character separator. -/
def splitOnChar (sep : Char) : List Char → List (List Char)
  | [] => [[]]
  | c :: cs =>
    match splitOnChar sep cs with
    | [] => [[]]
    | h :: t => if c == sep then [] :: h :: t else (c :: h) :: t

/-- Models `String.prototype.replace` with a literal (non-global) pattern:
the first occurrence of `pat` is replaced by `rep`. -/
def replaceFirstSub (pat rep : List Char) : List Char → List Char
  | [] => []
  | c :: cs =>
    if pat.isPrefixOf (c :: cs) then rep ++ (c :: cs).drop pat.length
    else c :: replaceFirstSub pat rep cs

/-- Models `replace(/\+/g, ' ')`. -/
def plusToSpace (l : List Char) : List Char :=
  l.map (fun c => if c == '+' then ' ' else c)

/-- Run a matcher at every start position from left to right and return the first
success; models a non-global `String.prototype.match` (the matchers used here
never match the empty suffix, so the final position is omitted). -/
def jsFind (tryAt : List Char → Option α) : List Char → Option α
  | [] => none
  | c :: cs =>
    match tryAt (c :: cs) with
    | some a => some a
    | none => jsFind tryAt cs

/-- Fuelled worker for `jsScan`. -/
def jsScanAux (tryAt : List Char → Option (α × List Char)) : Nat → List Char → List α
  | 0, _ => []
  | _ + 1, [] => []
  | fuel + 1, c :: cs =>
    match tryAt (c :: cs) with
    | some (a, rest) => a :: jsScanAux tryAt fuel rest
    | none => jsScanAux tryAt fuel cs

/-- Repeatedly run a matcher left to right, restarting after the end of each match;
models a global `exec` loop.  Every matcher used here consumes at least one
character on success, so fuel `length + 1` is never exhausted. -/
def jsScan (tryAt : List Char → Option (α × List Char)) (l : List Char) : List α :=
  jsScanAux tryAt (l.length + 1) l

/-- Search with a decreasing amount of text handed to the tail matcher; models the
backtracking of a greedy `[^}]*` (or `[^{}]*`) that precedes a literal: the longest
prefix whose remainder satisfies the tail wins. -/
def descSearch (tailFn : List Char → Option α) (r : List Char) : Nat → Option α
  | 0 => tailFn r
  | j + 1 =>
    match tailFn (r.drop (j + 1)) with
    | some res => some res
    | none => descSearch tailFn r j

/-- Matcher for the global rule-block regex of lines 205 and 264
(a literal rule keyword, optional whitespace, an opening bracket, a capture of
non-closing-bracket characters, a closing bracket); returns the captured block
interior and the remainder after the match. -/
def tryFontFaceAt (l : List Char) : Option (List Char × List Char) :=
  match dropPrefixCS ("@font-face".data) l with
  | none => none
  | some r1 =>
    match r1.dropWhile isSpaceJS with
    | b :: r3 =>
      if b == obr then
        let block := r3.takeWhile (fun c => c != cbr)
        match r3.dropWhile (fun c => c != cbr) with
        | _ :: r5 => some (block, r5)
        | [] => none
      else none
    | [] => none

/-- All rule-block interiors found by a global scan (the `while exec` loops of
lines 204-225 and 265-283). -/
def fontFaceBlocks (css : List Char) : List (List Char) :=
  jsScan tryFontFaceAt css

/-- Matcher for the family extraction of lines 209 and 268: a case-insensitive
literal `font-family`, optional whitespace, a colon, optional whitespace, an
optional quote, then a capture of characters that are neither quotes nor
semicolons (possibly empty). -/
def tryFamilyValueAt (l : List Char) : Option (List Char) :=
  match dropPrefixCI ("font-family".data) l with
  | none => none
  | some r1 =>
    match r1.dropWhile isSpaceJS with
    | ':' :: r3 =>
      let r4 := r3.dropWhile isSpaceJS
      let r5 := match r4 with
        | c :: t => if isQuote c then t else r4
        | [] => r4
      some (r5.takeWhile (fun c => !(isQuote c || c == ';')))
    | _ => none

/-- Matcher for the property extractions of lines 210-213 and 269-272: a
case-insensitive literal property name, optional whitespace, a colon, optional
whitespace, then a capture of non-semicolon characters (possibly empty). -/
def tryPropValueAt (prop : List Char) (l : List Char) : Option (List Char) :=
  match dropPrefixCI prop l with
  | none => none
  | some r1 =>
    match r1.dropWhile isSpaceJS with
    | ':' :: r3 => some ((r3.dropWhile isSpaceJS).takeWhile (fun c => c != ';'))
    | _ => none

/-- One face declaration record (lines 216-222). -/
structure FontFaceDecl where
  fontFamily : String
  src : String
  style : String
  weight : String
  display : String
deriving DecidableEq

/-- Falsy-default of JavaScript `x || dflt` on an optional string-producing
expression: the default is taken when there is no match or the capture is empty. -/
def jsOr (v : Option (List Char)) (dflt : List Char) : List Char :=
  match v with
  | some s => if s.isEmpty then dflt else s
  | none => dflt

/-- The body of the parsing loop of lines 207-224 (identical to lines 266-282)
for one matched block interior: the declaration is emitted only when the family
capture exists and is non-empty; src defaults to the empty string, style and
weight default to `normal`, display defaults to the empty string. -/
def mkFontFace (block : List Char) : Option FontFaceDecl :=
  match jsFind tryFamilyValueAt block with
  | none => none
  | some fam =>
    if fam.isEmpty then none
    else some
      { fontFamily := String.mk fam
        src := String.mk (jsOr (jsFind (tryPropValueAt ("src".data)) block) [])
        style := String.mk (jsOr (jsFind (tryPropValueAt ("font-style".data)) block) ("normal".data))
        weight := String.mk (jsOr (jsFind (tryPropValueAt ("font-weight".data)) block) ("normal".data))
        display := String.mk (jsOr (jsFind (tryPropValueAt ("font-display".data)) block) []) }

/-- The face-declaration parser of lines 203-225 / 263-283: one pass over the
matched blocks, emitting at most one declaration per block. -/
def parseFontFaceDeclarations (css : List Char) : List FontFaceDecl :=
  (fontFaceBlocks css).filterMap mkFontFace

/-- Tail matcher for the kit-service regex of line 96, run after the greedy
`[^}]*`: a case-sensitive literal `font-family`, optional whitespace, colon,
optional whitespace, a quote, a non-empty capture of non-quote characters, a
quote, then any non-closing-bracket characters and the closing bracket.
Returns the family capture and the remainder after the closing bracket. -/
def tkTail (t : List Char) : Option (List Char × List Char) :=
  match dropPrefixCS ("font-family".data) t with
  | none => none
  | some r1 =>
    match r1.dropWhile isSpaceJS with
    | ':' :: r3 =>
      match r3.dropWhile isSpaceJS with
      | q :: r5 =>
        if isQuote q then
          let cap := r5.takeWhile (fun c => !(isQuote c))
          if cap.isEmpty then none
          else
            match r5.dropWhile (fun c => !(isQuote c)) with
            | _ :: r6 =>
              match r6.dropWhile (fun c => c != cbr) with
              | _ :: r7 => some (cap, r7)
              | [] => none
            | [] => none
        else none
      | [] => none
    | _ => none

/-- Matcher for the full kit-service regex of line 96 at one position.  The
greedy `[^}]*` between the opening bracket and `font-family` backtracks from the
longest bracket-free prefix, so the candidates are tried in decreasing length.
Returns (whole match, family capture) and the remainder. -/
def tryTypekitAt (l : List Char) : Option ((List Char × List Char) × List Char) :=
  match dropPrefixCS ("@font-face".data) l with
  | none => none
  | some r1 =>
    match r1.dropWhile isSpaceJS with
    | b :: r3 =>
      if b == obr then
        let runLen := (r3.takeWhile (fun c => c != cbr)).length
        match descSearch tkTail r3 runLen with
        | some (fam, rest) =>
          some ((l.take (l.length - rest.length), fam), rest)
        | none => none
      else none
    | [] => none

/-- All kit-service matches of the `while` loop of line 104, in match order:
(whole match, family capture) pairs. -/
def typekitMatches (css : List Char) : List (List Char × List Char) :=
  jsScan tryTypekitAt css

/-- Matcher for the weight regex of line 97 (case-sensitive, first alternative
wins: a digit run, then the literals `normal`, `bold`, `lighter`, `bolder`). -/
def tryTKWeightAt (l : List Char) : Option (List Char) :=
  match dropPrefixCS ("font-weight".data) l with
  | none => none
  | some r1 =>
    match r1.dropWhile isSpaceJS with
    | ':' :: r3 =>
      let r4 := r3.dropWhile isSpaceJS
      let digits := r4.takeWhile Char.isDigit
      if !digits.isEmpty then some digits
      else if ("normal".data).isPrefixOf r4 then some ("normal".data)
      else if ("bold".data).isPrefixOf r4 then some ("bold".data)
      else if ("lighter".data).isPrefixOf r4 then some ("lighter".data)
      else if ("bolder".data).isPrefixOf r4 then some ("bolder".data)
      else none
    | _ => none

/-- Matcher for the style regex of line 98 (case-sensitive literals `normal`,
`italic`, `oblique`). -/
def tryTKStyleAt (l : List Char) : Option (List Char) :=
  match dropPrefixCS ("font-style".data) l with
  | none => none
  | some r1 =>
    match r1.dropWhile isSpaceJS with
    | ':' :: r3 =>
      let r4 := r3.dropWhile isSpaceJS
      if ("normal".data).isPrefixOf r4 then some ("normal".data)
      else if ("italic".data).isPrefixOf r4 then some ("italic".data)
      else if ("oblique".data).isPrefixOf r4 then some ("oblique".data)
      else none
    | _ => none

/-- One kit-service font record (lines 116-120). -/
structure TypekitFontDetail where
  name : String
  weight : String
  style : String
deriving DecidableEq

/-- Builds the record of lines 116-120 from one match: weight and style come from
running the line 97/98 regexes over the whole match text, defaulting to `normal`. -/
def mkTKDetail (full fam : List Char) : TypekitFontDetail :=
  { name := String.mk fam
    weight := String.mk ((jsFind tryTKWeightAt full).getD ("normal".data))
    style := String.mk ((jsFind tryTKStyleAt full).getD ("normal".data)) }

/-- The loop of lines 104-122: a first-occurrence-wins fold over the matches,
`seen` models the string `Set` `extractedFonts`. -/
def tkCollect : List (List Char × List Char) → List (List Char) → List TypekitFontDetail
  | [], _ => []
  | (full, fam) :: rest, seen =>
    if fam ∈ seen then tkCollect rest seen
    else mkTKDetail full fam :: tkCollect rest (fam :: seen)

/-- The `fontDetails` array produced for one kit-service stylesheet
(lines 100-122). -/
def typekitFontDetails (css : List Char) : List TypekitFontDetail :=
  tkCollect (typekitMatches css) []

/-- The recognised binary font extensions of the line 250 regex alternation. -/
def fontExts : List (List Char) := ["woff2".data, "woff".data, "ttf".data, "otf".data, "eot".data]

/-- Whether the captured run can be decomposed as `[^'"\)]+` followed by a dot
and one of the extensions: under greedy backtracking the match consumes the
whole run, which must therefore end in a dot-extension suffix preceded by at
least one character. -/
def endsWithDotExt (r : List Char) : Bool :=
  fontExts.any (fun e => ('.' :: e).isSuffixOf r && decide (e.length + 1 < r.length))

/-- Matcher for the font-file URL regex of line 250: literal `url(`, an optional
quote, a non-empty capture of characters that are not quotes or closing
parentheses ending in a font extension, an optional quote, a closing
parenthesis. -/
def tryUrlAt (l : List Char) : Option (List Char × List Char) :=
  match dropPrefixCS ("url(".data) l with
  | none => none
  | some r1 =>
    let r2 := match r1 with
      | c :: t => if isQuote c then t else r1
      | [] => r1
    let cap := r2.takeWhile (fun c => !(isQuote c || c == ')'))
    if cap.isEmpty then none
    else if endsWithDotExt cap then
      match r2.drop cap.length with
      | ')' :: rest => some (cap, rest)
      | q :: ')' :: rest => if isQuote q then some (cap, rest) else none
      | _ => none
    else none

/-- All font-file URL captures of the `while` loop of line 252, in match order. -/
def urlCaptures (css : List Char) : List (List Char) :=
  jsScan tryUrlAt css

/-- Matcher for the extension regex of lines 145 and 259: a dot, a non-empty
capture of characters that are neither dots nor question marks, then the end of
the string or a question mark. -/
def tryFormatAt (l : List Char) : Option (List Char) :=
  match l with
  | '.' :: r =>
    let cap := r.takeWhile (fun c => !(c == '.' || c == '?'))
    if cap.isEmpty then none
    else
      match r.drop cap.length with
      | [] => some cap
      | '?' :: _ => some cap
      | _ => none
  | _ => none

/-- The format inferred from a captured font URL (line 259), `none` models the
optional-chain producing `undefined`. -/
def fmtOf (u : List Char) : Option String :=
  (jsFind tryFormatAt u).map String.mk

/-- Matcher for the `family=` regex of line 58: case-insensitive literal
`family=` followed by a non-empty capture of non-ampersand characters. -/
def tryFamilyParamAt (l : List Char) : Option (List Char) :=
  match dropPrefixCI ("family=".data) l with
  | none => none
  | some r =>
    let cap := r.takeWhile (fun c => c != '&')
    if cap.isEmpty then none else some cap

/-- Matcher for the global font-family regex of line 293 (case-insensitive
`font-family`, optional whitespace, colon, then `\s*([^;]+)`).  When the value
consists only of whitespace the greedy `\s*` backtracks one character so that
the non-empty capture can take the last whitespace character. -/
def tryFFValueAt (l : List Char) : Option (List Char × List Char) :=
  match dropPrefixCI ("font-family".data) l with
  | none => none
  | some r1 =>
    match r1.dropWhile isSpaceJS with
    | ':' :: r3 =>
      let sp := r3.takeWhile isSpaceJS
      let r4 := r3.drop sp.length
      let cap := r4.takeWhile (fun c => c != ';')
      if !cap.isEmpty then some (cap, r4.drop cap.length)
      else
        match sp.getLast? with
        | some c => some ([c], r4)
        | none => none
    | _ => none

/-- All captures of the line 293 regex over a text, in match order. -/
def ffCaptures (css : List Char) : List (List Char) :=
  jsScan tryFFValueAt css

/-- Matcher for the semicolon-terminated font-family regex of line 316
(case-insensitive, the capture `([^;]+)` must be followed by a semicolon). -/
def tryFFSemiAt (l : List Char) : Option (List Char × List Char) :=
  match dropPrefixCI ("font-family".data) l with
  | none => none
  | some r1 =>
    match r1.dropWhile isSpaceJS with
    | ':' :: r3 =>
      let sp := r3.takeWhile isSpaceJS
      let r4 := r3.drop sp.length
      let cap := r4.takeWhile (fun c => c != ';')
      if !cap.isEmpty then
        match r4.drop cap.length with
        | ';' :: rest => some (cap, rest)
        | _ => none
      else
        match sp.getLast?, r4 with
        | some c, ';' :: rest => some ([c], rest)
        | _, _ => none
    | _ => none

/-- All captures of the line 316 regex (the value part of each
semicolon-terminated font-family rule of `allCSS`), in match order. -/
def ffSemiCaptures (css : List Char) : List (List Char) :=
  jsScan tryFFSemiAt css

/-- Matcher for the CSS-import regex of line 183: literal at-import keyword, at
least one whitespace character, an optional literal `url(`, a quote, a non-empty
capture of non-quote characters, a quote, an optional closing parenthesis, a
semicolon. -/
def tryImportRuleAt (l : List Char) : Option (List Char × List Char) :=
  match dropPrefixCS ("@import".data) l with
  | none => none
  | some r1 =>
    let sp := r1.takeWhile isSpaceJS
    if sp.isEmpty then none
    else
      let r2 := r1.drop sp.length
      let r3 := match dropPrefixCS ("url(".data) r2 with
        | some t => t
        | none => r2
      match r3 with
      | q :: r4 =>
        if isQuote q then
          let cap := r4.takeWhile (fun c => !(isQuote c))
          if cap.isEmpty then none
          else
            match r4.drop cap.length with
            | _ :: r5 =>
              match r5 with
              | ')' :: ';' :: rest => some (cap, rest)
              | ';' :: rest => some (cap, rest)
              | _ => none
            | [] => none
        else none
      | [] => none

/-- Matcher for the case-insensitive extension test of line 192: a dot, one of
the font extensions (first alternative wins), then the end or a question mark. -/
def tryFontExtAt (l : List Char) : Option Unit :=
  match l with
  | '.' :: r =>
    let tryE := fun (e : List Char) =>
      match dropPrefixCI e r with
      | some rest =>
        match rest with
        | [] => true
        | '?' :: _ => true
        | _ => false
      | none => false
    if tryE ("woff2".data) || tryE ("woff".data) || tryE ("ttf".data) ||
       tryE ("otf".data) || tryE ("eot".data)
    then some () else none
  | _ => none

/-- Truthiness of `importUrl.match(/\.(woff2?|ttf|otf|eot)($|\?)/i)` (line 192). -/
def hasFontExt (u : List Char) : Bool := (jsFind tryFontExtAt u).isSome

/-- Tail matcher shared by the two regexes of `extractFontFamiliesFromCSS`
(lines 366 and 383), run after the greedy `[^{}]*` inside the block: a
case-insensitive property literal, optional whitespace, colon, `\s*([^;}]+)`
(with the same one-character whitespace give-back as line 293 when the value is
all whitespace), then any non-closing-bracket characters and the closing
bracket.  Returns the value capture and the remainder after the match. -/
def usageTail (prop : List Char) (t : List Char) : Option (List Char × List Char) :=
  match dropPrefixCI prop t with
  | none => none
  | some r1 =>
    match r1.dropWhile isSpaceJS with
    | ':' :: r3 =>
      let sp := r3.takeWhile isSpaceJS
      let r4 := r3.drop sp.length
      let cap := r4.takeWhile (fun c => !(c == ';' || c == cbr))
      if !cap.isEmpty then
        match (r4.drop cap.length).dropWhile (fun c => c != cbr) with
        | _ :: rest => some (cap, rest)
        | [] => none
      else
        match sp.getLast? with
        | some c =>
          match r4.dropWhile (fun c => c != cbr) with
          | _ :: rest => some ([c], rest)
          | [] => none
        | none => none
    | _ => none

/-- Matcher for the rule regexes of lines 366/383 at one position: a capture of
brace-free characters (the selector), an opening bracket, then the backtracking
`[^{}]*` followed by the property tail.  Returns ((selector capture, value
capture), remainder). -/
def tryUsageAt (prop : List Char) (l : List Char) : Option ((List Char × List Char) × List Char) :=
  let cap1 := l.takeWhile (fun c => !(c == obr || c == cbr))
  match l.drop cap1.length with
  | b :: r2 =>
    if b == obr then
      let runLen := (r2.takeWhile (fun c => !(c == obr || c == cbr))).length
      match descSearch (usageTail prop) r2 runLen with
      | some (val, rest) => some ((cap1, val), rest)
      | none => none
    else none
  | [] => none

/-- One derived font-family usage record of `extractFontFamiliesFromCSS`
(lines 376-379 and 396-400); `shorthand := false` models the object without the
`shorthand` property. -/
structure FontFamilyUsage where
  selector : String
  value : String
  shorthand : Bool
deriving DecidableEq

/-- The `font-family` pass of lines 366-380: selector trimmed, value trimmed
then stripped of all quotes. -/
def famUsagesOf (css : List Char) : List FontFamilyUsage :=
  (jsScan (tryUsageAt ("font-family".data)) css).map (fun m =>
    { selector := String.mk (jsTrim m.1)
      value := String.mk ((jsTrim m.2).filter (fun c => !(isQuote c)))
      shorthand := false })

/-- The shorthand `font` pass of lines 383-403: the trimmed value is split on
single spaces; with at least two parts, the last part is kept as the family when
it is non-empty and does not start with a digit, stripped of quotes and tagged
as shorthand-derived. -/
def shorthandUsagesOf (css : List Char) : List FontFamilyUsage :=
  (jsScan (tryUsageAt ("font".data)) css).filterMap (fun m =>
    let parts := splitOnChar ' ' (jsTrim m.2)
    if parts.length ≥ 2 then
      let lastPart := parts.getLastD []
      if !lastPart.isEmpty &&
         !(match lastPart with
           | c :: _ => c.isDigit
           | [] => false) then
        some { selector := String.mk (jsTrim m.1)
               value := String.mk (lastPart.filter (fun c => !(isQuote c)))
               shorthand := true }
      else none
    else none)

/-- `extractFontFamiliesFromCSS` (lines 360-406): all plain font-family usages
followed by all shorthand-derived ones. -/
def extractFontFamiliesFromCSS (css : List Char) : List FontFamilyUsage :=
  famUsagesOf css ++ shorthandUsagesOf css

/-- Scheme characters after the leading letter (RFC 3986). -/
def isSchemeChar (c : Char) : Bool := c.isAlphanum || c == '+' || c == '-' || c == '.'

/-- Split off a leading `scheme:` from a reference, when present. -/
def schemeSplit (r : List Char) : Option (List Char × List Char) :=
  match r with
  | c :: _ =>
    if c.isAlpha then
      let run := r.takeWhile isSchemeChar
      match r.drop run.length with
      | ':' :: rest => some (run, rest)
      | _ => none
    else none
  | [] => none

/-- Characters accepted in an ASCII hostname; anything else (space, bracket,
percent and the other forbidden host code points) makes parsing fail. -/
def isHostChar (c : Char) : Bool := c.isAlphanum || c == '.' || c == '-' || c == '_'

/-- Validate a `host[:port]` authority component. -/
def validHost (h : List Char) : Bool :=
  match splitOnChar ':' h with
  | [hn] => !hn.isEmpty && hn.all isHostChar
  | [hn, port] => !hn.isEmpty && hn.all isHostChar && port.all Char.isDigit
  | _ => false

/-- Lowercase a character list. -/
def lowerList (l : List Char) : List Char := l.map Char.toLower

/-- Dot-segment removal over the `/`-split segments of a path (single-dot
segments are skipped, double-dot segments pop, both leave a trailing slash when
final; popping at the root is clamped). -/
def dotSegs : List (List Char) → List (List Char) → List (List Char)
  | acc, [] => acc.reverse
  | acc, seg :: rest =>
    if seg == (".".data) then
      if rest.isEmpty then ([] :: acc).reverse else dotSegs acc rest
    else if seg == ("..".data) then
      let acc2 := acc.tail
      if rest.isEmpty then ([] :: acc2).reverse else dotSegs acc2 rest
    else dotSegs (seg :: acc) rest

/-- Normalize an absolute path (must start with a slash) by dot-segment removal. -/
def normalizePath (p : List Char) : List Char :=
  let body := p.drop 1
  let segs := splitOnChar '/' body
  '/' :: (List.intercalate ("/".data) (dotSegs [] segs))

/-- Split a path-and-query at the first `?` or `#`. -/
def splitPathQuery (p : List Char) : List Char × List Char :=
  let path := p.takeWhile (fun c => !(c == '?' || c == '#'))
  (path, p.drop path.length)

/-- Serialize scheme, host and path-with-query into an href (empty path becomes
`/`, dot segments removed, scheme and host lowercased). -/
def buildHref (scheme host pathq : List Char) : List Char :=
  let pq := splitPathQuery pathq
  lowerList scheme ++ ("://".data) ++ lowerList host ++
    normalizePath (if pq.1.isEmpty then ("/".data) else pq.1) ++ pq.2

/-- Parse the remainder of an `http(s)` URL after the scheme: requires `//`,
then a valid authority, then the path and query. -/
def parseHttpRest (rest : List Char) : Option (List Char × List Char) :=
  match dropPrefixCS ("//".data) rest with
  | some r2 =>
    let host := r2.takeWhile (fun c => !(c == '/' || c == '?' || c == '#'))
    if validHost host then some (host, r2.drop host.length) else none
  | none => none

/-- The directory part of a base path: everything up to and including the last
slash, or the root when there is none. -/
def dirOf (bpath : List Char) : List Char :=
  let cut := bpath.reverse.dropWhile (fun c => c != '/')
  match cut with
  | [] => "/".data
  | _ => cut.reverse

/-- Modelled platform API: the WHATWG `new URL(ref, base).href` constructor used
at lines 157 and 254.  `some` is the serialized absolute URL, `none` models the
thrown `TypeError`.  The model covers absolute `http(s)` references with ASCII
hosts, other-scheme references (passed through opaquely), and scheme-relative,
root-relative and path-relative references against an `http(s)` base; references
needing percent-encoding are passed through verbatim. -/
def newURL (ref base : String) : Option String :=
  match schemeSplit ref.data with
  | some (sch, rest) =>
    let schL := lowerList sch
    if schL == ("http".data) || schL == ("https".data) then
      match parseHttpRest rest with
      | some (host, pathq) => some (String.mk (buildHref schL host pathq))
      | none => none
    else some ref
  | none =>
    match schemeSplit base.data with
    | some (bsch, brest) =>
      let bschL := lowerList bsch
      if bschL == ("http".data) || bschL == ("https".data) then
        match parseHttpRest brest with
        | some (bhost, bpathq) =>
          match ref.data with
          | '/' :: '/' :: _ =>
            (match parseHttpRest ref.data with
             | some (h2, p2) => some (String.mk (buildHref bschL h2 p2))
             | none => none)
          | '/' :: _ => some (String.mk (buildHref bschL bhost ref.data))
          | [] => some (String.mk (buildHref bschL bhost bpathq))
          | _ =>
            some (String.mk (buildHref bschL bhost
              (dirOf (splitPathQuery bpathq).1 ++ ref.data)))
        | none => none
      else none
    | none => none

/-- One family entry produced from a family-list service link (lines 62-66). -/
structure GoogleFontEntry where
  name : String
  url : String
  type : String
deriving DecidableEq

/-- One kit-service project entry (lines 125-130). -/
structure AdobeFontEntry where
  type : String
  url : String
  projectId : String
  fonts : List TypekitFontDetail
deriving DecidableEq

/-- One preloaded font entry (lines 141-146). -/
structure PreloadedFontEntry where
  url : String
  type : String
  format : String
deriving DecidableEq

/-- One import-chain entry (lines 194-197). -/
structure CssImportEntry where
  url : String
  type : String
deriving DecidableEq

/-- One binary font file reference (lines 256-260); `format` is optional because
the extension match can fail, leaving the property `undefined`. -/
structure FontFileRef where
  url : String
  type : String
  format : Option String
deriving DecidableEq

/-- One system-font-stack entry (lines 307-310). -/
structure SystemStackEntry where
  stack : String
  type : String
deriving DecidableEq

/-- One computed-font entry (lines 331-334). -/
structure ComputedFontEntry where
  name : String
  type : String
deriving DecidableEq

/-- One stylesheet source record (lines 173-178 and 242-247). -/
structure CssSourceFile where
  source : String
  url : Option String
  content : String
  fontFamilies : List FontFamilyUsage
deriving DecidableEq

/-- The result object returned at lines 336-347. -/
structure FontCatalog where
  googleFonts : List GoogleFontEntry
  adobeFonts : List AdobeFontEntry
  fontFiles : List FontFileRef
  fontFaceDeclarations : List FontFaceDecl
  preloadedFonts : List PreloadedFontEntry
  cssImportFonts : List CssImportEntry
  systemFontStacks : List SystemStackEntry
  computedFonts : List ComputedFontEntry
  cssSourceFiles : List CssSourceFile
deriving DecidableEq

/-- The keys of the object literal returned at lines 336-347, in source order. -/
def catalogKeys : List String :=
  ["googleFonts", "adobeFonts", "fontFiles", "fontFaceDeclarations",
   "preloadedFonts", "cssImportFonts", "systemFontStacks", "computedFonts",
   "cssSourceFiles"]

/-- The inputs the engine reads from the fetched page: the normalized page URL,
the raw response body, and the attribute values of the elements selected by the
three cheerio queries (stylesheet links, font preload links, style tags), in
document order; `none` models a missing attribute or `null` tag content. -/
structure PageInput where
  pageUrl : String
  html : String
  stylesheetLinkHrefs : List (Option String)
  preloadFontLinks : List (Option String × Option String)
  styleTagTexts : List (Option String)

/-- The family entries derived from one family-list service link href
(lines 58-67): the captured `family=` parameter is split on pipes; each
segment's text before the first colon, with plus signs replaced by spaces,
names one entry. -/
def googleFamiliesFromHref (href : String) : List GoogleFontEntry :=
  match jsFind tryFamilyParamAt href.data with
  | none => []
  | some cap =>
    (splitOnChar '|' cap).map (fun seg =>
      { name := String.mk (plusToSpace ((splitOnChar ':' seg).headD []))
        url := href
        type := "google-font" })

/-- The family-list service pass of lines 55-71. -/
def googleFontsOf (hrefs : List (Option String)) : List GoogleFontEntry :=
  hrefs.foldl (fun acc h? =>
    match h? with
    | some h =>
      if h ≠ "" && strContains "fonts.googleapis.com" h then
        acc ++ googleFamiliesFromHref h
      else acc
    | none => acc) []

/-- The kit-service link collection of lines 74-80. -/
def typekitLinksOf (hrefs : List (Option String)) : List String :=
  hrefs.filterMap (fun h? =>
    match h? with
    | some h =>
      if h ≠ "" && (strContains "use.typekit.net" h || strContains "use.edgefonts.net" h)
      then some h else none
    | none => none)

/-- The final path segment of the link with its extension removed (line 128). -/
def projectIdOf (u : String) : String :=
  String.mk ((splitOnChar '.' ((splitOnChar '/' u.data).getLastD [])).headD [])

/-- The kit-service fetch loop of lines 83-135: a failed fetch is caught and the
link is skipped; a successful fetch contributes one project entry. -/
def adobeFontsOf (fetch : String → Option String) (links : List String) : List AdobeFontEntry :=
  links.foldl (fun acc u =>
    match fetch u with
    | some css =>
      acc ++ [{ type := "adobe-font", url := u, projectId := projectIdOf u
                fonts := typekitFontDetails css.data }]
    | none => acc) []

/-- The format chain of lines 144-145: the `type` attribute with a leading
`font/` removed when that yields a non-empty string, else the extension match on
the href, else `unknown`. -/
def preloadFormat (t? : Option String) (href : String) : String :=
  let fallback :=
    match jsFind tryFormatAt href.data with
    | some f => String.mk f
    | none => "unknown"
  match t? with
  | some t =>
    let r := String.mk (replaceFirstSub ("font/".data) [] t.data)
    if r ≠ "" then r else fallback
  | none => fallback

/-- The preload pass of lines 138-148. -/
def preloadedFontsOf (links : List (Option String × Option String)) : List PreloadedFontEntry :=
  links.foldl (fun acc p =>
    match p.1 with
    | some h =>
      if h ≠ "" then
        acc ++ [{ url := h, type := "preloaded-font", format := preloadFormat p.2 h }]
      else acc
    | none => acc) []

/-- The stylesheet URL collection of lines 151-163: each href is resolved
against the page URL individually; a resolution failure is caught and only that
href is skipped. -/
def stylesheetUrlsOf (pageUrl : String) (hrefs : List (Option String)) : List String :=
  hrefs.foldl (fun acc h? =>
    match h? with
    | some h =>
      if h ≠ "" then
        match newURL h pageUrl with
        | some abs => acc ++ [abs]
        | none => acc
      else acc
    | none => acc) []

/-- The style-tag collection of lines 166-180 (only truthy contents are kept). -/
def styleTagsOf (texts : List (Option String)) : List String :=
  texts.filterMap (fun t? =>
    match t? with
    | some t => if t ≠ "" then some t else none
    | none => none)

/-- The inline stylesheet source records pushed at lines 173-178. -/
def inlineSourcesOf (styleTags : List String) : List CssSourceFile :=
  styleTags.map (fun c =>
    { source := "inline <style> tag", url := none, content := c
      fontFamilies := extractFontFamiliesFromCSS c.data })

/-- The import-chain pass of lines 182-200: every import match in every style
tag whose URL passes the font-relatedness test of lines 188-193. -/
def cssImportFontsOf (styleTags : List String) : List CssImportEntry :=
  styleTags.foldl (fun acc tag =>
    acc ++ ((jsScan tryImportRuleAt tag.data).filterMap (fun u =>
      if containsSub ("fonts.googleapis.com".data) u || containsSub ("fonts.".data) u ||
         containsSub ("/fonts/".data) u || hasFontExt u
      then some { url := String.mk u, type := "css-import-font" }
      else none))) []

/-- The inline face-declaration pass of lines 203-225. -/
def inlineDeclsOf (styleTags : List String) : List FontFaceDecl :=
  styleTags.foldl (fun acc t => acc ++ parseFontFaceDeclarations t.data) []

/-- The request-scoped state mutated by the external stylesheet loop of
lines 228-288. -/
structure LoopState where
  fontFiles : List FontFileRef
  decls : List FontFaceDecl
  sources : List CssSourceFile
deriving DecidableEq

/-- The font-file reference built at lines 256-260 for one captured URL. -/
def fontFileRefOf (abs : String) (u : List Char) : FontFileRef :=
  { url := abs, type := "font-file", format := fmtOf u }

/-- The URL-reference loop of lines 250-261: each capture is resolved against
the stylesheet URL; the constructor call is not individually guarded, so a
resolution failure throws, the references already added are kept, the remaining
captures are dropped and the flag reports the abort to the caller. -/
def resolveFontUrls (base : String) : List (List Char) → List FontFileRef × Bool
  | [] => ([], true)
  | u :: us =>
    match newURL (String.mk u) base with
    | some abs =>
      let r := resolveFontUrls base us
      (fontFileRefOf abs u :: r.1, r.2)
    | none => ([], false)

/-- The external stylesheet source record pushed at lines 242-247. -/
def mkExternalSource (cssUrl content : String) : CssSourceFile :=
  { source := "external CSS file", url := some cssUrl, content := content
    fontFamilies := extractFontFamiliesFromCSS content.data }

/-- The body of the loop of lines 229-288 for one successfully fetched
stylesheet: the source record is pushed first, then the font-file references are
collected; the face-declaration pass of lines 264-283 runs only when no URL
resolution threw (the throw is caught by the per-stylesheet handler at
line 285, which keeps all effects made before it). -/
def processCss (cssUrl content : String) (st : LoopState) : LoopState :=
  let st1 := { st with sources := st.sources ++ [mkExternalSource cssUrl content] }
  let r := resolveFontUrls cssUrl (urlCaptures content.data)
  let st2 := { st1 with fontFiles := st1.fontFiles ++ r.1 }
  if r.2 then { st2 with decls := st2.decls ++ parseFontFaceDeclarations content.data }
  else st2

/-- The external stylesheet loop of lines 229-288: sequential, one fetch per
URL; a fetch failure is caught and that URL is skipped. -/
def cssLoop (fetch : String → Option String) (urls : List String) (st : LoopState) : LoopState :=
  urls.foldl (fun s u =>
    match fetch u with
    | some content => processCss u content s
    | none => s) st

/-- The concatenation scanned at lines 294 and 316: all style tags joined with
single spaces followed by the raw response body. -/
def allCSSOf (styleTags : List String) (html : String) : String :=
  String.intercalate " " styleTags ++ html

/-- The fixed token list of lines 299-305. -/
def systemTokens : List (List Char) :=
  ["system-ui".data, "-apple-system".data, "BlinkMacSystemFont".data,
   "Segoe UI".data, "Roboto".data, "Helvetica Neue".data, "Arial".data]

/-- The substring test of lines 298-306 over one un-cleaned font-family value. -/
def hasSystemToken (v : List Char) : Bool :=
  systemTokens.any (fun t => containsSub t v)

/-- The system-stack loop of lines 296-312: every capture containing a token is
pushed verbatim. -/
def sysAux : List (List Char) → List SystemStackEntry
  | [] => []
  | v :: vs =>
    if hasSystemToken v then
      { stack := String.mk v, type := "system-font-stack" } :: sysAux vs
    else sysAux vs

/-- The `systemFontStacks` collection built from a text (lines 290-312). -/
def systemStacksOf (css : List Char) : List SystemStackEntry :=
  sysAux (ffCaptures css)

/-- The fixed generic-keyword list of line 325. -/
def genericKeys : List (List Char) :=
  ["serif".data, "sans-serif".data, "monospace".data, "cursive".data,
   "fantasy".data, "system-ui".data, "-apple-system".data]

/-- The cleanup of lines 318-321 applied to one capture of the line 316 regex:
the prefix and the terminating semicolon removed by the two replaces (the
capture itself contains no semicolon), then trimmed. -/
def valueOfRule (cap : List Char) : List Char :=
  jsTrim (cap.filter (fun c => c != ';'))

/-- The token pipeline of lines 323-325 for one rule value: split on commas,
each token trimmed and stripped of quotes, generic keywords dropped. -/
def tokensOfValue (cap : List Char) : List (List Char) :=
  ((splitOnChar ',' (valueOfRule cap)).map
      (fun f => (jsTrim f).filter (fun c => !(isQuote c)))).filter
    (fun f => !(genericKeys.contains f))

/-- One `Set.add` of line 327: empty tokens are not added, insertion order is
kept, later duplicates are ignored. -/
def addTok (acc : List (List Char)) (f : List Char) : List (List Char) :=
  if f.isEmpty then acc else if f ∈ acc then acc else acc ++ [f]

/-- The `computedFontFamilies` set of lines 315-329 built from a text. -/
def computedNamesOf (css : List Char) : List (List Char) :=
  (ffSemiCaptures css).foldl (fun acc cap => (tokensOfValue cap).foldl addTok acc) []

/-- The `computedFonts` collection of lines 331-334. -/
def computedFontsOf (css : List Char) : List ComputedFontEntry :=
  (computedNamesOf css).map (fun n => { name := String.mk n, type := "computed-font" })

/-- The whole extraction pipeline of `detectFonts` (lines 32-353) after the
primary page fetch, assembled in source order from the passes above. -/
def detectFonts (i : PageInput) (fetch : String → Option String) : FontCatalog :=
  let styleTags := styleTagsOf i.styleTagTexts
  let st0 : LoopState :=
    { fontFiles := [], decls := inlineDeclsOf styleTags
      sources := inlineSourcesOf styleTags }
  let st := cssLoop fetch (stylesheetUrlsOf i.pageUrl i.stylesheetLinkHrefs) st0
  let allCSS := allCSSOf styleTags i.html
  { googleFonts := googleFontsOf i.stylesheetLinkHrefs
    adobeFonts := adobeFontsOf fetch (typekitLinksOf i.stylesheetLinkHrefs)
    fontFiles := st.fontFiles
    fontFaceDeclarations := st.decls
    preloadedFonts := preloadedFontsOf i.preloadFontLinks
    cssImportFonts := cssImportFontsOf styleTags
    systemFontStacks := systemStacksOf allCSS.data
    computedFonts := computedFontsOf allCSS.data
    cssSourceFiles := st.sources }

/-- Whether a block interior carries a usable family name: the family regex
matches with a non-empty capture (the truthiness test of line 215). -/
def hasFamilyName (block : List Char) : Bool :=
  match jsFind tryFamilyValueAt block with
  | some f => !f.isEmpty
  | none => false

theorem length_filterMap_eq_length_filter (f : α → Option β) (l : List α) :
    (l.filterMap f).length = (l.filter (fun a => (f a).isSome)).length := by
  induction l with
  | nil => rfl
  | cons a t ih =>
    simp only [List.filterMap_cons, List.filter_cons]
    cases h : f a <;> simp [h, ih]

theorem mkFontFace_isSome (b : List Char) :
    (mkFontFace b).isSome = hasFamilyName b := by
  unfold mkFontFace hasFamilyName
  cases jsFind tryFamilyValueAt b with
  | none => rfl
  | some f =>
    by_cases h : f.isEmpty <;> simp [h]

/-- C1: on any CSS text, the face-declaration parser emits exactly one
declaration per matched font-face block that carries a (non-empty) family name
— no two blocks are merged; a block whose family capture is missing or empty is
discarded; and in every emitted declaration the weight and style default to
`normal` and the display hint to the empty string whenever the corresponding
property regex finds no match in the block. -/
theorem c1_face_decls (css : List Char) :
    (parseFontFaceDeclarations css).length
        = ((fontFaceBlocks css).filter hasFamilyName).length
    ∧ (∀ b ∈ fontFaceBlocks css, hasFamilyName b = false → mkFontFace b = none)
    ∧ (∀ b ∈ fontFaceBlocks css, ∀ d, mkFontFace b = some d →
        (jsFind (tryPropValueAt ("font-weight".data)) b = none → d.weight = "normal")
        ∧ (jsFind (tryPropValueAt ("font-style".data)) b = none → d.style = "normal")
        ∧ (jsFind (tryPropValueAt ("font-display".data)) b = none → d.display = "")) := by
  refine ⟨?_, ?_, ?_⟩
  · rw [parseFontFaceDeclarations, length_filterMap_eq_length_filter]
    congr 1
    exact List.filter_congr (fun b _ => mkFontFace_isSome b)
  · intro b _ hfam
    have h := mkFontFace_isSome b
    rw [hfam] at h
    exact Option.not_isSome_iff_eq_none.mp (by simp [h])
  · intro b _ d hd
    unfold mkFontFace at hd
    cases hfind : jsFind tryFamilyValueAt b with
    | none => rw [hfind] at hd; exact absurd hd (by simp)
    | some f =>
      rw [hfind] at hd
      dsimp only at hd
      by_cases hf : f.isEmpty
      · rw [if_pos hf] at hd; exact absurd hd (by simp)
      · rw [if_neg hf] at hd
        have hd' := Option.some.inj hd
        refine ⟨?_, ?_, ?_⟩
        · intro hw; rw [← hd']; simp [jsOr, hw]
        · intro hs; rw [← hd']; simp [jsOr, hs]
        · intro hp; rw [← hd']; simp [jsOr, hp]

/-- Concrete CSS with two font-face blocks, the second lacking a family name. -/
def c1ExampleCss : String :=
  "@font-face\x7bfont-family: \x27A\x27\x7d@font-face\x7bsrc:url(x.woff)\x7d"

/-- The first block interior of `c1ExampleCss`. -/
def c1BlockA : List Char := "font-family: \x27A\x27".data

/-- The second block interior of `c1ExampleCss` (no family). -/
def c1BlockB : List Char := "src:url(x.woff)".data

theorem c1_face_decls_witness :
    (parseFontFaceDeclarations c1ExampleCss.data).length = 1
    ∧ mkFontFace c1BlockB = none
    ∧ ∃ d, mkFontFace c1BlockA = some d
        ∧ d.weight = "normal" ∧ d.style = "normal" ∧ d.display = "" := by
  have h := c1_face_decls c1ExampleCss.data
  refine ⟨h.1.trans (by decide), h.2.1 c1BlockB (by decide) (by decide), ?_⟩
  refine ⟨{ fontFamily := "A", src := "", style := "normal", weight := "normal",
            display := "" }, by decide, ?_, ?_, ?_⟩
  · exact (h.2.2 c1BlockA (by decide) _ (by decide)).1 (by decide)
  · exact (h.2.2 c1BlockA (by decide) _ (by decide)).2.1 (by decide)
  · exact (h.2.2 c1BlockA (by decide) _ (by decide)).2.2 (by decide)

/-- A stylesheet that references the same binary font file twice. -/
def c2DupCss : String :=
  "@font-face\x7bsrc:url(a.woff);\x7d @font-face\x7bsrc:url(a.woff);\x7d"

/-- A page with one external stylesheet link. -/
def c2Input : PageInput :=
  { pageUrl := "https://ex.com/", html := ""
    stylesheetLinkHrefs := [some "s.css"], preloadFontLinks := [], styleTagTexts := [] }

/-- The fetch oracle serving `c2DupCss` for the resolved stylesheet URL. -/
def c2Fetch : String → Option String :=
  fun u => if u == "https://ex.com/s.css" then some c2DupCss else none

/-- C2 (code bug): the `fontFiles` collection is built by adding a fresh object
literal to a JavaScript `Set` for every matched reference; objects compare by
reference, so the set never deduplicates and the same URL+format pair appears
once per reference.  On a stylesheet referencing `a.woff` twice, the returned
catalog holds two entries with identical URL and format, contradicting the
claimed URL+format set semantics. -/
theorem c2_fontfiles_duplicate :
    (detectFonts c2Input c2Fetch).fontFiles =
      [{ url := "https://ex.com/a.woff", type := "font-file", format := some "woff" },
       { url := "https://ex.com/a.woff", type := "font-file", format := some "woff" }] := by
  decide

theorem mem_addTok (acc : List (List Char)) (f x : List Char) :
    x ∈ addTok acc f ↔ x ∈ acc ∨ (x = f ∧ f ≠ []) := by
  unfold addTok
  split_ifs with h1 h2
  · have : f = [] := List.isEmpty_iff.mp h1
    subst this
    simp
  · constructor
    · exact fun h => Or.inl h
    · rintro (h | ⟨rfl, -⟩)
      · exact h
      · exact h2
  · have hne : f ≠ [] := fun h => h1 (by simp [h])
    simp [List.mem_append, hne]

theorem nodup_addTok (acc : List (List Char)) (f : List Char) (h : acc.Nodup) :
    (addTok acc f).Nodup := by
  unfold addTok
  split_ifs with h1 h2
  · exact h
  · exact h
  · simp [List.nodup_append, h, h2]

theorem fold_addTok_nodup (ts : List (List Char)) (acc : List (List Char))
    (h : acc.Nodup) : (ts.foldl addTok acc).Nodup := by
  induction ts generalizing acc with
  | nil => exact h
  | cons t ts ih => exact ih _ (nodup_addTok _ _ h)

theorem mem_fold_addTok (ts : List (List Char)) (acc : List (List Char)) (x : List Char) :
    x ∈ ts.foldl addTok acc ↔ x ∈ acc ∨ (x ∈ ts ∧ x ≠ []) := by
  induction ts generalizing acc with
  | nil => simp
  | cons t ts ih =>
    simp only [List.foldl_cons, ih, mem_addTok, List.mem_cons]
    constructor
    · rintro ((h | ⟨rfl, hne⟩) | ⟨h, hne⟩)
      · exact Or.inl h
      · exact Or.inr ⟨Or.inl rfl, hne⟩
      · exact Or.inr ⟨Or.inr h, hne⟩
    · rintro (h | ⟨(rfl | h), hne⟩)
      · exact Or.inl (Or.inl h)
      · exact Or.inl (Or.inr ⟨rfl, hne⟩)
      · exact Or.inr ⟨h, hne⟩

theorem mem_computedNames (css : List Char) (x : List Char) :
    x ∈ computedNamesOf css
      ↔ ∃ cap ∈ ffSemiCaptures css, x ∈ tokensOfValue cap ∧ x ≠ [] := by
  unfold computedNamesOf
  generalize ffSemiCaptures css = caps
  have main : ∀ (caps : List (List Char)) (acc : List (List Char)),
      x ∈ caps.foldl (fun acc cap => (tokensOfValue cap).foldl addTok acc) acc
        ↔ x ∈ acc ∨ ∃ cap ∈ caps, x ∈ tokensOfValue cap ∧ x ≠ [] := by
    intro caps
    induction caps with
    | nil => simp
    | cons c cs ih =>
      intro acc
      simp only [List.foldl_cons, ih, mem_fold_addTok, List.mem_cons]
      constructor
      · rintro ((h | ⟨h, hne⟩) | ⟨cap, hc, h, hne⟩)
        · exact Or.inl h
        · exact Or.inr ⟨c, Or.inl rfl, h, hne⟩
        · exact Or.inr ⟨cap, Or.inr hc, h, hne⟩
      · rintro (h | ⟨cap, (rfl | hc), h, hne⟩)
        · exact Or.inl (Or.inl h)
        · exact Or.inl (Or.inr ⟨h, hne⟩)
        · exact Or.inr ⟨cap, hc, h, hne⟩
  simp [main caps []]

theorem computedNames_nodup (css : List Char) : (computedNamesOf css).Nodup := by
  unfold computedNamesOf
  generalize ffSemiCaptures css = caps
  have main : ∀ (caps : List (List Char)) (acc : List (List Char)), acc.Nodup →
      (caps.foldl (fun acc cap => (tokensOfValue cap).foldl addTok acc) acc).Nodup := by
    intro caps
    induction caps with
    | nil => exact fun _ h => h
    | cons c cs ih => exact fun acc h => ih _ (fold_addTok_nodup _ _ h)
  exact main caps [] List.nodup_nil

/-- A page whose only style tag declares one two-family stack. -/
def c3Input : PageInput :=
  { pageUrl := "https://e.com/", html := ""
    stylesheetLinkHrefs := [], preloadFontLinks := []
    styleTagTexts := [some "s\x7bfont-family: Foo, Bar;\x7d"] }

/-- A fetch oracle on which every request fails. -/
def noFetch : String → Option String := fun _ => none

/-- C3 counterexample: on a stack with two surviving custom families the code
emits two separate single-family entries, not one entry containing both joined
with a comma and space: the tokens are added to the set individually and never
re-joined. -/
theorem c3_counterexample :
    (detectFonts c3Input noFetch).computedFonts =
      [{ name := "Foo", type := "computed-font" },
       { name := "Bar", type := "computed-font" }]
    ∧ { name := "Foo, Bar", type := "computed-font" }
        ∉ (detectFonts c3Input noFetch).computedFonts := by
  decide

/-- C3 amended: each computed font stack is split on commas, each token trimmed
and unquoted, generic keywords and empty tokens dropped — and each surviving
token is then added *individually* to the deduplicating computed set (one entry
per surviving token, first occurrence wins across all stacks), rather than the
tokens being re-joined into one display name.  Every entry is a non-empty,
non-generic single token coming from some scanned rule value, entries are
pairwise distinct, and every surviving token of every rule value has an entry. -/
theorem c3_tokens_individual (i : PageInput) (fetch : String → Option String) :
    ((detectFonts i fetch).computedFonts.map (fun e => e.name.data)).Nodup
    ∧ (∀ e ∈ (detectFonts i fetch).computedFonts,
        e.name.data ≠ [] ∧ e.name.data ∉ genericKeys ∧ e.type = "computed-font"
        ∧ ∃ cap ∈ ffSemiCaptures (allCSSOf (styleTagsOf i.styleTagTexts) i.html).data,
            e.name.data ∈ tokensOfValue cap)
    ∧ (∀ cap ∈ ffSemiCaptures (allCSSOf (styleTagsOf i.styleTagTexts) i.html).data,
        ∀ t ∈ tokensOfValue cap, t ≠ [] →
          ∃ e ∈ (detectFonts i fetch).computedFonts, e.name.data = t) := by
  have hcf : (detectFonts i fetch).computedFonts
      = computedFontsOf (allCSSOf (styleTagsOf i.styleTagTexts) i.html).data := rfl
  set css := (allCSSOf (styleTagsOf i.styleTagTexts) i.html).data with hcss
  refine ⟨?_, ?_, ?_⟩
  · rw [hcf]
    unfold computedFontsOf
    rw [List.map_map]
    have : ((fun e => ComputedFontEntry.name e |>.data) ∘
        (fun n => ({ name := String.mk n, type := "computed-font" } : ComputedFontEntry)))
        = id := by
      funext n; rfl
    rw [this, List.map_id]
    exact computedNames_nodup css
  · intro e he
    rw [hcf] at he
    unfold computedFontsOf at he
    obtain ⟨n, hn, rfl⟩ := List.mem_map.mp he
    have hmem := (mem_computedNames css n).mp hn
    obtain ⟨cap, hcap, htok, hne⟩ := hmem
    refine ⟨hne, ?_, rfl, cap, hcap, htok⟩
    have := List.of_mem_filter htok
    intro hmemg
    simp only [List.contains, List.elem_eq_mem] at this
    simp at hmemg
    simp [hmemg] at this
  · intro cap hcap t ht hne
    rw [hcf]
    unfold computedFontsOf
    refine ⟨{ name := String.mk t, type := "computed-font" }, ?_, rfl⟩
    exact List.mem_map_of_mem _ ((mem_computedNames css t).mpr ⟨cap, hcap, ht, hne⟩)

theorem c3_tokens_individual_witness :
    ∃ e ∈ (detectFonts c3Input noFetch).computedFonts, e.name.data = "Foo".data :=
  (c3_tokens_individual c3Input noFetch).2.2 ("Foo, Bar".data) (by decide)
    ("Foo".data) (by decide) (by decide)

/-- A stylesheet whose first font reference has an unparseable absolute URL
(space in the host), followed by a resolvable reference and a face rule. -/
def c4BadCss : String :=
  "x\x7bsrc:url(http://a b/bad.woff);\x7d y\x7bsrc:url(ok.woff);\x7d @font-face\x7bfont-family:\x27Q\x27\x7d"

/-- A page with two external stylesheet links. -/
def c4Input : PageInput :=
  { pageUrl := "https://ex.com/", html := ""
    stylesheetLinkHrefs := [some "s.css", some "t.css"], preloadFontLinks := []
    styleTagTexts := [] }

/-- The fetch oracle: the first sheet is `c4BadCss`, the second holds one good
reference. -/
def c4Fetch : String → Option String :=
  fun u => if u == "https://ex.com/s.css" then some c4BadCss
           else if u == "https://ex.com/t.css" then some "z\x7bsrc:url(fine.woff)\x7d"
           else none

/-- C4 counterexample: inside one fetched stylesheet the URL constructor call of
line 254 is not individually guarded, so the failure on the first reference is
caught only by the per-stylesheet handler: the subsequent reference `ok.woff`
— individually resolvable — is never processed, and the sheet's face-declaration
pass is skipped as well; only the other stylesheet contributes. -/
theorem c4_counterexample :
    newURL "ok.woff" "https://ex.com/s.css" = some "https://ex.com/ok.woff"
    ∧ (detectFonts c4Input c4Fetch).fontFiles =
        [{ url := "https://ex.com/fine.woff", type := "font-file", format := some "woff" }]
    ∧ (detectFonts c4Input c4Fetch).fontFaceDeclarations = [] := by
  decide

/-- C4 amended: the two resolution sites behave differently.  In the
stylesheet-link batch (lines 152-163) each reference is guarded individually: a
missing, empty or unresolvable href is skipped and the rest of the batch is
unaffected.  In the font-file batch inside one fetched stylesheet
(lines 249-261) the first unresolvable reference throws to the per-stylesheet
handler: the references resolved before it are kept, every later reference in
that stylesheet is dropped (and the abort flag suppresses that stylesheet's
face-declaration pass), while other stylesheets are unaffected because the loop
catches the throw per stylesheet. -/
theorem c4_resolution_isolation :
    (∀ (page : String) (as bs : List (Option String)) (h : Option String),
      (h = none ∨ h = some "" ∨ ∃ s, h = some s ∧ newURL s page = none) →
      stylesheetUrlsOf page (as ++ h :: bs) = stylesheetUrlsOf page (as ++ bs))
    ∧ (∀ (base : String) (xs ys : List (List Char)) (u : List Char),
      newURL (String.mk u) base = none →
      (∀ v ∈ xs, (newURL (String.mk v) base).isSome) →
      resolveFontUrls base (xs ++ u :: ys) = ((resolveFontUrls base xs).1, false)) := by
  constructor
  · intro page as bs h hbad
    unfold stylesheetUrlsOf
    rw [List.foldl_append, List.foldl_append, List.foldl_cons]
    congr 1
    rcases hbad with rfl | rfl | ⟨s, rfl, hn⟩
    · rfl
    · rfl
    · by_cases hs : s = ""
      · simp [hs]
      · simp [hs, hn]
  · intro base xs ys u hbad hok
    induction xs with
    | nil =>
      simp only [List.nil_append]
      unfold resolveFontUrls
      rw [hbad]
    | cons v vs ih =>
      have hv := hok v (List.mem_cons_self v vs)
      obtain ⟨abs, habs⟩ := Option.isSome_iff_exists.mp hv
      have ih' := ih (fun w hw => hok w (List.mem_cons_of_mem v hw))
      simp only [List.cons_append]
      unfold resolveFontUrls
      rw [habs, ih']

theorem c4_resolution_isolation_witness :
    resolveFontUrls "https://ex.com/s.css"
        ([] ++ ("http://a b/bad.woff".data) :: ["ok.woff".data])
      = ((resolveFontUrls "https://ex.com/s.css" []).1, false) :=
  c4_resolution_isolation.2 "https://ex.com/s.css" [] ["ok.woff".data]
    ("http://a b/bad.woff".data) (by decide)
    (fun v hv => absurd hv (List.not_mem_nil v))

/-- C5 counterexample: the success output of the engine is the object literal of
lines 336-347, whose keys are exactly the nine collections listed in
`catalogKeys` — for every request, independent of input.  No tenth or eleventh
key exists, so no collection of custom-property font values and no collection of
runtime-observed fetches is ever part of the output, under these or any other
names. -/
theorem c5_counterexample :
    catalogKeys = ["googleFonts", "adobeFonts", "fontFiles", "fontFaceDeclarations",
      "preloadedFonts", "cssImportFonts", "systemFontStacks", "computedFonts",
      "cssSourceFiles"]
    ∧ catalogKeys.length = 9
    ∧ "customPropertyFonts" ∉ catalogKeys
    ∧ "runtimeFetches" ∉ catalogKeys := by
  decide

/-- A page with no links, no preloads, no style tags and an empty body. -/
def c5EmptyInput : PageInput :=
  { pageUrl := "https://e.com/", html := ""
    stylesheetLinkHrefs := [], preloadFontLinks := [], styleTagTexts := [] }

/-- C5 amended: every successful request returns a catalog with exactly the nine
collections of `catalogKeys`; a category with no findings is present as an empty
collection, never an omitted key — on a page with no font signals all nine
collections are returned empty, whatever the fetch oracle does.  The
custom-property and runtime-fetch categories of the dynamic acquisition path are
not part of this output. -/
theorem c5_catalog_shape (fetch : String → Option String) :
    detectFonts c5EmptyInput fetch =
      { googleFonts := [], adobeFonts := [], fontFiles := [], fontFaceDeclarations := []
        preloadedFonts := [], cssImportFonts := [], systemFontStacks := []
        computedFonts := [], cssSourceFiles := [] } := by
  rfl

theorem tkCollect_mem_src :
    ∀ (ms : List (List Char × List Char)) (seen : List (List Char))
      (d : TypekitFontDetail), d ∈ tkCollect ms seen →
      ∃ p ∈ ms, d = mkTKDetail p.1 p.2 ∧ p.2 ∉ seen := by
  intro ms
  induction ms with
  | nil => intro seen d h; exact absurd h (List.not_mem_nil d)
  | cons q rest ih =>
    intro seen d h
    obtain ⟨full₀, fam₀⟩ := q
    unfold tkCollect at h
    by_cases hseen : fam₀ ∈ seen
    · rw [if_pos hseen] at h
      obtain ⟨p, hp, hd, hns⟩ := ih seen d h
      exact ⟨p, List.mem_cons_of_mem _ hp, hd, hns⟩
    · rw [if_neg hseen] at h
      rcases List.mem_cons.mp h with rfl | h
      · exact ⟨(full₀, fam₀), List.mem_cons_self _ _, rfl, hseen⟩
      · obtain ⟨p, hp, hd, hns⟩ := ih (fam₀ :: seen) d h
        exact ⟨p, List.mem_cons_of_mem _ hp, hd,
          fun hmem => hns (List.mem_cons_of_mem _ hmem)⟩

theorem tkCollect_not_seen (ms : List (List Char × List Char))
    (seen : List (List Char)) (d : TypekitFontDetail) (h : d ∈ tkCollect ms seen) :
    d.name.data ∉ seen := by
  obtain ⟨p, _, rfl, hns⟩ := tkCollect_mem_src ms seen d h
  exact hns

theorem tkCollect_first :
    ∀ (ms : List (List Char × List Char)) (seen : List (List Char))
      (d : TypekitFontDetail), d ∈ tkCollect ms seen →
      ∃ full, ms.find? (fun p => p.2 == d.name.data) = some (full, d.name.data)
        ∧ d = mkTKDetail full d.name.data := by
  intro ms
  induction ms with
  | nil => intro seen d h; exact absurd h (List.not_mem_nil d)
  | cons q rest ih =>
    intro seen d h
    obtain ⟨full₀, fam₀⟩ := q
    unfold tkCollect at h
    by_cases hseen : fam₀ ∈ seen
    · rw [if_pos hseen] at h
      have hne : fam₀ ≠ d.name.data := by
        intro he; exact tkCollect_not_seen rest seen d h (he ▸ hseen)
      obtain ⟨full, hf, hd⟩ := ih seen d h
      refine ⟨full, ?_, hd⟩
      rw [List.find?_cons_of_neg]
      · exact hf
      · simp [hne]
    · rw [if_neg hseen] at h
      rcases List.mem_cons.mp h with rfl | h
      · refine ⟨full₀, ?_, rfl⟩
        have hname : (mkTKDetail full₀ fam₀).name.data = fam₀ := rfl
        rw [hname, List.find?_cons_of_pos]
        simp
      · have hne : fam₀ ≠ d.name.data := by
          intro he
          exact tkCollect_not_seen rest (fam₀ :: seen) d h (he ▸ List.mem_cons_self _ _)
        obtain ⟨full, hf, hd⟩ := ih (fam₀ :: seen) d h
        refine ⟨full, ?_, hd⟩
        rw [List.find?_cons_of_neg]
        · exact hf
        · simp [hne]

theorem tkCollect_nodup :
    ∀ (ms : List (List Char × List Char)) (seen : List (List Char)),
      ((tkCollect ms seen).map (fun d => d.name.data)).Nodup := by
  intro ms
  induction ms with
  | nil => intro seen; simp [tkCollect]
  | cons q rest ih =>
    intro seen
    obtain ⟨full₀, fam₀⟩ := q
    unfold tkCollect
    by_cases hseen : fam₀ ∈ seen
    · rw [if_pos hseen]; exact ih seen
    · rw [if_neg hseen]
      simp only [List.map_cons, List.nodup_cons]
      refine ⟨?_, ih (fam₀ :: seen)⟩
      intro hmem
      obtain ⟨d, hd, hname⟩ := List.mem_map.mp hmem
      have := tkCollect_not_seen rest (fam₀ :: seen) d hd
      rw [hname] at this
      exact this (List.mem_cons_self _ _)

theorem tkCollect_complete :
    ∀ (ms : List (List Char × List Char)) (seen : List (List Char))
      (p : List Char × List Char), p ∈ ms →
      p.2 ∈ seen ∨ ∃ d ∈ tkCollect ms seen, d.name.data = p.2 := by
  intro ms
  induction ms with
  | nil => intro seen p h; exact absurd h (List.not_mem_nil p)
  | cons q rest ih =>
    intro seen p hp
    obtain ⟨full₀, fam₀⟩ := q
    unfold tkCollect
    by_cases hseen : fam₀ ∈ seen
    · rw [if_pos hseen]
      rcases List.mem_cons.mp hp with rfl | hp
      · exact Or.inl hseen
      · exact ih seen p hp
    · rw [if_neg hseen]
      rcases List.mem_cons.mp hp with rfl | hp
      · exact Or.inr ⟨mkTKDetail full₀ fam₀, List.mem_cons_self _ _, rfl⟩
      · rcases ih (fam₀ :: seen) p hp with hs | ⟨d, hd, hn⟩
        · rcases List.mem_cons.mp hs with he | hs
          · exact Or.inr ⟨mkTKDetail full₀ fam₀, List.mem_cons_self _ _, he.symm⟩
          · exact Or.inl hs
        · exact Or.inr ⟨d, List.mem_cons_of_mem _ hd, hn⟩

/-- C6: for one kit-service stylesheet, the project record list holds exactly
one record per family — the family names are pairwise distinct, every record is
built from the *first* matched rule carrying its family, and every matched
rule's family is represented — while the general face-declaration parser (the
one that also runs over this stylesheet when it is fetched through the generic
stylesheet loop) keeps one declaration per family-bearing block with no
deduplication. -/
theorem c6_kit_dedup (css : List Char) :
    ((typekitFontDetails css).map (fun d => d.name.data)).Nodup
    ∧ (∀ d ∈ typekitFontDetails css,
        ∃ full, (typekitMatches css).find? (fun p => p.2 == d.name.data)
            = some (full, d.name.data)
          ∧ d = mkTKDetail full d.name.data)
    ∧ (∀ p ∈ typekitMatches css, ∃ d ∈ typekitFontDetails css, d.name.data = p.2)
    ∧ (parseFontFaceDeclarations css).length
        = ((fontFaceBlocks css).filter hasFamilyName).length := by
  refine ⟨tkCollect_nodup _ [], ?_, ?_, ?_⟩
  · intro d hd
    exact tkCollect_first (typekitMatches css) [] d hd
  · intro p hp
    rcases tkCollect_complete (typekitMatches css) [] p hp with hs | h
    · exact absurd hs (List.not_mem_nil _)
    · exact h
  · rw [parseFontFaceDeclarations, length_filterMap_eq_length_filter]
    congr 1
    exact List.filter_congr (fun b _ => mkFontFace_isSome b)

/-- The kit-service stylesheet of the specification example: two face rules for
`Proxima Nova` at weights 400 and 700 and a third rule repeating weight 400. -/
def c6ExampleCss : String :=
  "@font-face\x7bfont-family:\x22Proxima Nova\x22;font-weight:400;\x7d@font-face\x7bfont-family:\x22Proxima Nova\x22;font-weight:700;\x7d@font-face\x7bfont-family:\x22Proxima Nova\x22;font-weight:400;\x7d"

theorem c6_kit_dedup_witness :
    typekitFontDetails c6ExampleCss.data
      = [{ name := "Proxima Nova", weight := "400", style := "normal" }]
    ∧ (typekitMatches c6ExampleCss.data).length = 3
    ∧ ∃ full, (typekitMatches c6ExampleCss.data).find?
          (fun p => p.2 == ("Proxima Nova".data)) = some (full, "Proxima Nova".data)
        ∧ ({ name := "Proxima Nova", weight := "400", style := "normal" } : TypekitFontDetail)
            = mkTKDetail full ("Proxima Nova".data) := by
  refine ⟨by decide, by decide, ?_⟩
  exact (c6_kit_dedup c6ExampleCss.data).2.1
    { name := "Proxima Nova", weight := "400", style := "normal" } (by decide)

/-- C7: when the link href carries a `family=` parameter, the classifier emits
exactly one entry per pipe-delimited segment of the captured parameter, and the
k-th entry's name is the k-th segment's text before its first colon with every
plus sign replaced by a space; every entry carries the originating href and the
`google-font` tag. -/
theorem c7_family_param (href : String) (cap : List Char)
    (h : jsFind tryFamilyParamAt href.data = some cap) :
    (googleFamiliesFromHref href).length = (splitOnChar '|' cap).length
    ∧ (∀ k : Nat, (googleFamiliesFromHref href)[k]?.map (fun e => e.name.data)
        = (splitOnChar '|' cap)[k]?.map
            (fun seg => plusToSpace ((splitOnChar ':' seg).headD [])))
    ∧ ∀ e ∈ googleFamiliesFromHref href, e.url = href ∧ e.type = "google-font" := by
  unfold googleFamiliesFromHref
  rw [h]
  refine ⟨by simp, ?_, ?_⟩
  · intro k
    simp only [List.getElem?_map, Option.map_map]
    rfl
  · intro e he
    obtain ⟨seg, _, rfl⟩ := List.mem_map.mp he
    exact ⟨rfl, rfl⟩

/-- The family-list service link of the specification example. -/
def c7Href : String := "https://fonts.googleapis.com/css?family=Open+Sans:400,700|Roboto"

theorem c7_family_param_witness :
    (googleFamiliesFromHref c7Href).length = 2
    ∧ (googleFamiliesFromHref c7Href)[0]?.map (fun e => e.name.data)
        = some ("Open Sans".data)
    ∧ (googleFamiliesFromHref c7Href)[1]?.map (fun e => e.name.data)
        = some ("Roboto".data) := by
  have h := c7_family_param c7Href ("Open+Sans:400,700|Roboto".data) (by decide)
  exact ⟨h.1.trans (by decide), (h.2.1 0).trans (by decide), (h.2.1 1).trans (by decide)⟩

theorem sysAux_eq_filter (l : List (List Char)) :
    sysAux l = (l.filter hasSystemToken).map
      (fun v => { stack := String.mk v, type := "system-font-stack" }) := by
  induction l with
  | nil => rfl
  | cons v vs ih =>
    unfold sysAux
    by_cases h : hasSystemToken v <;> simp [h, ih, List.filter_cons]

/-- C8: the system-stack collection is exactly the un-cleaned captures of the
font-family scan over `allCSS` that contain at least one of the fixed tokens,
each reported verbatim: every capture containing a token yields the verbatim
entry, every reported entry is a verbatim capture containing a token, and a
value containing no token is never reported.  The construction reads only the
captures, independent of the cleaned computed output. -/
theorem c8_system_stacks (i : PageInput) (fetch : String → Option String) :
    (detectFonts i fetch).systemFontStacks
      = ((ffCaptures (allCSSOf (styleTagsOf i.styleTagTexts) i.html).data).filter
          hasSystemToken).map
          (fun v => { stack := String.mk v, type := "system-font-stack" })
    ∧ (∀ v ∈ ffCaptures (allCSSOf (styleTagsOf i.styleTagTexts) i.html).data,
        hasSystemToken v = true →
        ({ stack := String.mk v, type := "system-font-stack" } : SystemStackEntry)
          ∈ (detectFonts i fetch).systemFontStacks)
    ∧ (∀ e ∈ (detectFonts i fetch).systemFontStacks,
        hasSystemToken e.stack.data = true
        ∧ e.stack.data ∈ ffCaptures (allCSSOf (styleTagsOf i.styleTagTexts) i.html).data) := by
  have hcf : (detectFonts i fetch).systemFontStacks
      = systemStacksOf (allCSSOf (styleTagsOf i.styleTagTexts) i.html).data := rfl
  rw [hcf, systemStacksOf, sysAux_eq_filter]
  refine ⟨rfl, ?_, ?_⟩
  · intro v hv htok
    exact List.mem_map_of_mem _ (List.mem_filter.mpr ⟨hv, htok⟩)
  · intro e he
    obtain ⟨v, hv, rfl⟩ := List.mem_map.mp he
    obtain ⟨hvc, hvt⟩ := List.mem_filter.mp hv
    exact ⟨hvt, hvc⟩

/-- A page whose style tag uses a stack containing the token `Arial`. -/
def c8Input : PageInput :=
  { pageUrl := "https://e.com/", html := ""
    stylesheetLinkHrefs := [], preloadFontLinks := []
    styleTagTexts := [some "x\x7bfont-family: Arial, sans-serif;\x7d"] }

theorem c8_system_stacks_witness :
    ({ stack := "Arial, sans-serif", type := "system-font-stack" } : SystemStackEntry)
      ∈ (detectFonts c8Input noFetch).systemFontStacks :=
  (c8_system_stacks c8Input noFetch).2.1 ("Arial, sans-serif".data) (by decide) (by decide)

theorem processCss_sources (u c : String) (st : LoopState) :
    (processCss u c st).sources = st.sources ++ [mkExternalSource u c] := by
  unfold processCss
  by_cases h : (resolveFontUrls u (urlCaptures c.data)).2 <;> simp [h]

theorem cssLoop_skip_failures (fetch : String → Option String) :
    ∀ (urls : List String) (st : LoopState),
      cssLoop fetch urls st
        = cssLoop fetch (urls.filter (fun u => (fetch u).isSome)) st := by
  intro urls
  induction urls with
  | nil => intro st; rfl
  | cons u us ih =>
    intro st
    simp only [cssLoop, List.foldl_cons, List.filter_cons]
    cases h : fetch u with
    | none =>
      simp only [h, Option.isSome_none, Bool.false_eq_true, if_false]
      exact ih st
    | some c =>
      simp only [h, Option.isSome_some, if_true, List.foldl_cons]
      exact ih (processCss u c st)

theorem cssLoop_sources_prefix (fetch : String → Option String) :
    ∀ (urls : List String) (st : LoopState),
      st.sources <+: (cssLoop fetch urls st).sources := by
  intro urls
  induction urls with
  | nil => intro st; exact List.prefix_refl _
  | cons u us ih =>
    intro st
    simp only [cssLoop, List.foldl_cons]
    cases h : fetch u with
    | none => exact ih st
    | some c =>
      refine List.IsPrefix.trans ?_ (ih (processCss u c st))
      rw [processCss_sources]
      exact ⟨[mkExternalSource u c], rfl⟩

theorem cssLoop_mem_sources (fetch : String → Option String) :
    ∀ (urls : List String) (st : LoopState) (u : String) (c : String),
      u ∈ urls → fetch u = some c →
      mkExternalSource u c ∈ (cssLoop fetch urls st).sources := by
  intro urls
  induction urls with
  | nil => intro st u c h; exact absurd h (List.not_mem_nil u)
  | cons v vs ih =>
    intro st u c hu hc
    simp only [cssLoop, List.foldl_cons]
    rcases List.mem_cons.mp hu with rfl | hu
    · rw [hc]
      have hpre := cssLoop_sources_prefix fetch vs (processCss u c st)
      obtain ⟨t, ht⟩ := hpre
      have hmem : mkExternalSource u c ∈ (processCss u c st).sources := by
        rw [processCss_sources]
        exact List.mem_append_right _ (List.mem_singleton.mpr rfl)
      have : cssLoop fetch vs (processCss u c st)
          = (List.foldl (fun s u => match fetch u with
              | some content => processCss u content s
              | none => s) (processCss u c st) vs) := rfl
      rw [← this, ← ht]
      exact List.mem_append_left _ hmem
    · cases h : fetch v with
      | none => exact ih st u c hu hc
      | some cv => exact ih (processCss v cv st) u c hu hc

/-- C9: a failing secondary stylesheet fetch affects nothing but its own source:
the external-stylesheet loop computes the same state as the loop run over only
the successfully fetched URLs (so a failure neither aborts nor perturbs the
processing of the others), and every successfully fetched stylesheet's source
record is present in the returned catalog's source collection; the engine
remains a total function of its inputs, so the request still succeeds. -/
theorem c9_fetch_isolation (i : PageInput) (fetch : String → Option String) :
    (∀ (urls : List String) (st : LoopState),
      cssLoop fetch urls st
        = cssLoop fetch (urls.filter (fun u => (fetch u).isSome)) st)
    ∧ (∀ u ∈ stylesheetUrlsOf i.pageUrl i.stylesheetLinkHrefs, ∀ c, fetch u = some c →
        mkExternalSource u c ∈ (detectFonts i fetch).cssSourceFiles) := by
  refine ⟨cssLoop_skip_failures fetch, ?_⟩
  intro u hu c hc
  exact cssLoop_mem_sources fetch _ _ u c hu hc

/-- A page with three external stylesheet links. -/
def c9Input : PageInput :=
  { pageUrl := "https://e.com/", html := ""
    stylesheetLinkHrefs := [some "a.css", some "b.css", some "c.css"]
    preloadFontLinks := [], styleTagTexts := [] }

/-- A fetch oracle on which the middle stylesheet fails and the other two
succeed. -/
def c9Fetch : String → Option String :=
  fun u => if u == "https://e.com/a.css" then some "p\x7bfont-family:A;\x7d"
           else if u == "https://e.com/c.css" then some "q\x7bfont-family:C;\x7d"
           else none

theorem c9_fetch_isolation_witness :
    mkExternalSource "https://e.com/a.css" "p\x7bfont-family:A;\x7d"
        ∈ (detectFonts c9Input c9Fetch).cssSourceFiles
    ∧ mkExternalSource "https://e.com/c.css" "q\x7bfont-family:C;\x7d"
        ∈ (detectFonts c9Input c9Fetch).cssSourceFiles := by
  constructor
  · exact (c9_fetch_isolation c9Input c9Fetch).2 "https://e.com/a.css" (by decide)
      "p\x7bfont-family:A;\x7d" (by decide)
  · exact (c9_fetch_isolation c9Input c9Fetch).2 "https://e.com/c.css" (by decide)
      "q\x7bfont-family:C;\x7d" (by decide)

/-- C10: the computed-font and system-stack collections are functions of the
inline style-tag texts and the raw page markup alone: two runs agreeing on
those two inputs produce identical collections whatever their stylesheet links,
preloads or fetch oracles do — so a font-family declaration living only in a
fetched external stylesheet can never contribute an entry to either. -/
theorem c10_static_derivation (i1 i2 : PageInput) (f1 f2 : String → Option String)
    (hst : styleTagsOf i1.styleTagTexts = styleTagsOf i2.styleTagTexts)
    (hh : i1.html = i2.html) :
    (detectFonts i1 f1).computedFonts = (detectFonts i2 f2).computedFonts
    ∧ (detectFonts i1 f1).systemFontStacks = (detectFonts i2 f2).systemFontStacks := by
  have h1 : (detectFonts i1 f1).computedFonts
      = computedFontsOf (allCSSOf (styleTagsOf i1.styleTagTexts) i1.html).data := rfl
  have h2 : (detectFonts i2 f2).computedFonts
      = computedFontsOf (allCSSOf (styleTagsOf i2.styleTagTexts) i2.html).data := rfl
  have h3 : (detectFonts i1 f1).systemFontStacks
      = systemStacksOf (allCSSOf (styleTagsOf i1.styleTagTexts) i1.html).data := rfl
  have h4 : (detectFonts i2 f2).systemFontStacks
      = systemStacksOf (allCSSOf (styleTagsOf i2.styleTagTexts) i2.html).data := rfl
  rw [h1, h2, h3, h4, hst, hh]
  exact ⟨rfl, rfl⟩

/-- A page whose only font signals live in one external stylesheet. -/
def c10Input : PageInput :=
  { pageUrl := "https://e.com/", html := ""
    stylesheetLinkHrefs := [some "s.css"], preloadFontLinks := [], styleTagTexts := [] }

/-- The external stylesheet declares the family `ZFont`, references a binary
font file and applies the family in a rule — none of which is present inline. -/
def c10Fetch : String → Option String :=
  fun u => if u == "https://e.com/s.css"
           then some "@font-face\x7bfont-family:\x27ZFont\x27;src:url(z.woff);\x7d h1\x7bfont-family: ZFont;\x7d"
           else none

theorem c10_static_derivation_witness :
    (detectFonts c10Input c10Fetch).computedFonts
        = (detectFonts c10Input noFetch).computedFonts
    ∧ (detectFonts c10Input c10Fetch).systemFontStacks
        = (detectFonts c10Input noFetch).systemFontStacks
    ∧ (detectFonts c10Input c10Fetch).computedFonts = []
    ∧ (∃ d ∈ (detectFonts c10Input c10Fetch).fontFaceDeclarations, d.fontFamily = "ZFont")
    ∧ (∃ r ∈ (detectFonts c10Input c10Fetch).fontFiles, r.url = "https://e.com/z.woff")
    ∧ (∃ s ∈ (detectFonts c10Input c10Fetch).cssSourceFiles,
        s.url = some "https://e.com/s.css") := by
  have h := c10_static_derivation c10Input c10Input c10Fetch noFetch rfl rfl
  exact ⟨h.1, h.2, by decide, by decide, by decide, by decide⟩
